import Mathlib

/-!
Shallow embedding of the privacypredictions repository:
  * src/programs/privacy-trading/encrypted-ixs/src/lib.rs  (namespace Circuits)
  * src/programs/privacy-trading/src/lib.rs                (namespace PrivacyTrading)
  * src/programs/zk-verifier/src/lib.rs                    (namespace ZkVerifier)

Machine integers are modelled as Nat with explicit reduction modulo 2^w at
every operation where the source's wrapping arithmetic matters.  Byte arrays
([u8; 32], Vec<u8>) are lists of Nat, each element a byte value.  Public keys
are opaque Nat identifiers.  Fallible instruction handlers return
Except ErrorCode _, mirroring anchor's Result<()>: an error return aborts the
whole transaction, so no account write persists.
-/

namespace PrivacyPredictions

/-- The i-th little-endian byte of a machine integer value (equivalent of
`x.to_le_bytes()[i]` and of `(x >> (i * 8)) & 0xFF`). -/
def byteAt (x i : Nat) : Nat := x / 2 ^ (8 * i) % 256

namespace Circuits

/-- Plaintext form of the encrypted batch state maintained inside the
confidential computation (struct `BatchState` in encrypted-ixs). -/
structure BatchState where
  total_amount : Nat
  order_count : Nat
  commitment_root : Nat
  commitment_root_hi : Nat
  order_hash_1 : Nat
  order_hash_2 : Nat
  order_hash_3 : Nat
  order_hash_4 : Nat
deriving DecidableEq

/-- `compute_order_hash` from encrypted-ixs: mixes the amount and the two
wallet halves with the multiplicative constant 31 under wrapping u128
arithmetic (`wrapping_add` / `wrapping_mul` / xor). -/
def compute_order_hash (amount wallet_lo wallet_hi : Nat) : Nat :=
  let h0 := amount % 2 ^ 128
  let h1 := h0 * 31 % 2 ^ 128
  let h2 := Nat.xor h1 wallet_lo
  let h3 := h2 * 31 % 2 ^ 128
  Nat.xor h3 wallet_hi

/-- `update_merkle_root` from encrypted-ixs: folds a new leaf into the two
running root halves via `new_lo = current_lo ^ new_leaf` and
`new_hi = current_hi.wrapping_add(new_leaf)`. -/
def update_merkle_root (current_lo current_hi new_leaf : Nat) : Nat × Nat :=
  (Nat.xor current_lo new_leaf, (current_hi + new_leaf) % 2 ^ 128)

/-- `init_batch` from encrypted-ixs, restricted to the plaintext it encrypts:
the all-zero initial state (encryption itself is outside the core). -/
def init_batch : BatchState :=
  { total_amount := 0, order_count := 0, commitment_root := 0,
    commitment_root_hi := 0, order_hash_1 := 0, order_hash_2 := 0,
    order_hash_3 := 0, order_hash_4 := 0 }

/-- `add_order` from encrypted-ixs, on the decrypted state: adds the amount to
the running total (wrapping u64), increments the order count (wrapping u8),
folds the order digest into the running commitment root, and retains the
digest verbatim in one of the four slots selected by the incremented count.
Decryption/re-encryption and nonce drawing are outside the core. -/
def add_order (user_amount user_wallet_lo user_wallet_hi : Nat)
    (state : BatchState) : BatchState :=
  let total := (state.total_amount + user_amount) % 2 ^ 64
  let count := (state.order_count + 1) % 2 ^ 8
  let order_hash := compute_order_hash user_amount user_wallet_lo user_wallet_hi
  let roots := update_merkle_root state.commitment_root state.commitment_root_hi order_hash
  { total_amount := total
    order_count := count
    commitment_root := roots.1
    commitment_root_hi := roots.2
    order_hash_1 := if count = 1 then order_hash else state.order_hash_1
    order_hash_2 := if count = 2 then order_hash else state.order_hash_2
    order_hash_3 := if count = 3 then order_hash else state.order_hash_3
    order_hash_4 := if count = 4 then order_hash else state.order_hash_4 }

/-- `hash_execution_params` from encrypted-ixs: mixes total_shares, price and
total_usdc with the constant 31 under wrapping u64 arithmetic. -/
def hash_execution_params (total_shares price total_usdc : Nat) : Nat :=
  let h0 := total_shares % 2 ^ 64
  let h1 := h0 * 31 % 2 ^ 64
  let h2 := (h1 + price) % 2 ^ 64
  let h3 := h2 * 31 % 2 ^ 64
  (h3 + total_usdc) % 2 ^ 64

/-- One iteration of the packing loop `for i in 0..16` of `execute_batch`:
`final_root[i] = root_lo_bytes[i]; final_root[i + 16] = root_hi_bytes[i]`. -/
def packStep (lo hi : Nat) (acc : List Nat) (i : Nat) : List Nat :=
  (acc.set i (byteAt lo i)).set (i + 16) (byteAt hi i)

/-- The packing loop of `execute_batch`, started from the zeroed 32-byte
array `[0u8; 32]`. -/
def packRoots (lo hi : Nat) : List Nat :=
  (List.range 16).foldl (packStep lo hi) (List.replicate 32 0)

/-- One iteration of the mixing loop `for i in 0..8` of `execute_batch`:
`final_root[i] ^= ((exec_hash >> (i * 8)) & 0xFF) as u8`. -/
def xorStep (exec_hash : Nat) (acc : List Nat) (i : Nat) : List Nat :=
  acc.set i (Nat.xor (acc.getD i 0) (byteAt exec_hash i))

/-- The mixing loop of `execute_batch`, applied to the packed root array. -/
def xorExecHash (exec_hash : Nat) (root : List Nat) : List Nat :=
  (List.range 8).foldl (xorStep exec_hash) root

/-- `execute_batch` from encrypted-ixs, on the decrypted final state: packs
the two u128 root halves little-endian into a 32-byte array (low half into
bytes 0..15, high half into bytes 16..31), XORs the first 8 bytes with the
little-endian bytes of the execution-parameter digest, and reveals
total_amount in plaintext as total_usdc. -/
def execute_batch (total_shares execution_price : Nat)
    (state : BatchState) : List Nat × Nat :=
  let exec_hash := hash_execution_params total_shares execution_price state.total_amount
  (xorExecHash exec_hash (packRoots state.commitment_root state.commitment_root_hi),
   state.total_amount)

end Circuits

namespace PrivacyTrading

/-- Order side (enum `Side`). -/
inductive Side where
  | Yes
  | No
deriving DecidableEq

/-- Batch lifecycle status (enum `BatchStatus`). -/
inductive BatchStatus where
  | Open
  | Closed
  | Executed
  | Verified
deriving DecidableEq

/-- Error codes of the privacy-trading program (enum `ErrorCode`). -/
inductive ErrorCode where
  | AbortedComputation
  | ClusterNotSet
  | BatchNotOpen
  | BatchNotClosed
  | BatchNotExecuted
  | BatchFull
  | EmptyBatch
  | Unauthorized
  | InvalidProof
  | InvalidProofData
  | MerkleRootMismatch
deriving DecidableEq

/-- Public batch record (account `TradingBatch`). -/
structure TradingBatch where
  bump : Nat
  authority : Nat
  market_id : String
  side : Side
  status : BatchStatus
  order_count : Nat
  total_usdc : Nat
  state_nonce : Nat
  encrypted_state : List (List Nat)
  merkle_root : List Nat
deriving DecidableEq

/-- Per-order public record (account `OrderCommitment`). -/
structure OrderCommitment where
  bump : Nat
  batch : Nat
  user : Nat
  commitment_hash : List Nat
  index : Nat
  allocated : Bool
deriving DecidableEq

/-- Verified payload of the `init_batch` computation output. -/
structure InitBatchOutput where
  ciphertexts : List (List Nat)
  nonce : Nat
deriving DecidableEq

/-- Verified payload of the `add_order` computation output. -/
structure AddOrderOutput where
  ciphertexts : List (List Nat)
  nonce : Nat
deriving DecidableEq

/-- Verified payload of the `execute_batch` computation output. -/
structure ExecuteBatchOutput where
  merkle_root : List Nat
  total_usdc : Nat
deriving DecidableEq

/-- Observable side effects of an instruction handler other than batch-field
writes: record creation and queueing of a confidential computation, in the
order they occur in the handler body. -/
inductive Effect where
  | createOrder (order : OrderCommitment)
  | dispatchComputation (encrypted_ix : String)
deriving DecidableEq

/-- `init_batch_callback`: `output.verify_output` checks the cluster
signature of the delivered output; that cryptographic check is external to
the core, so the callback receives its result as `some o` (verified payload)
or `none` (verification failed), mirroring the source's match.  On failure
the handler returns `AbortedComputation` before touching any field. -/
def init_batch_callback (output : Option InitBatchOutput)
    (batch : TradingBatch) : Except ErrorCode TradingBatch :=
  match output with
  | none => .error .AbortedComputation
  | some o =>
    .ok { batch with encrypted_state := o.ciphertexts, state_nonce := o.nonce }

/-- `add_order_callback`: on verified output, writes the new ciphertexts and
nonce and increments `order_count` (a u8); on verification failure, aborts
with `AbortedComputation` before touching any field. -/
def add_order_callback (output : Option AddOrderOutput)
    (batch : TradingBatch) : Except ErrorCode TradingBatch :=
  match output with
  | none => .error .AbortedComputation
  | some o =>
    .ok { batch with
      encrypted_state := o.ciphertexts
      state_nonce := o.nonce
      order_count := (batch.order_count + 1) % 2 ^ 8 }

/-- `execute_batch_callback`: on verified output, writes `merkle_root` and
`total_usdc` and flips the status to `Executed`; on verification failure,
aborts with `AbortedComputation` before touching any field. -/
def execute_batch_callback (output : Option ExecuteBatchOutput)
    (batch : TradingBatch) : Except ErrorCode TradingBatch :=
  match output with
  | none => .error .AbortedComputation
  | some o =>
    .ok { batch with
      merkle_root := o.merkle_root
      total_usdc := o.total_usdc
      status := .Executed }

/-- Transactional semantics of the surrounding runtime: an instruction that
returns an error aborts the enclosing transaction, so the stored batch record
keeps its previous value; only a successful return persists the new value. -/
def runCallback (result : Except ErrorCode TradingBatch)
    (prev : TradingBatch) : TradingBatch :=
  match result with
  | .ok b => b
  | .error _ => prev

/-- `add_order` instruction handler: requires the batch `Open` (else
`BatchNotOpen`), requires `order_count < 32` (else `BatchFull`), then fills
the freshly created `OrderCommitment` record (index = the batch's current
`order_count`) and only afterwards queues the `add_order` computation.  The
batch record itself is not mutated here: `order_count` advances only in the
callback. -/
def add_order (user : Nat) (batch_key : Nat) (commitment_hash : List Nat)
    (batch : TradingBatch) : Except ErrorCode (TradingBatch × List Effect) :=
  if batch.status = .Open then
    if batch.order_count < 32 then
      let order : OrderCommitment :=
        { bump := 0, batch := batch_key, user := user,
          commitment_hash := commitment_hash, index := batch.order_count,
          allocated := false }
      .ok (batch, [.createOrder order, .dispatchComputation "add_order"])
    else .error .BatchFull
  else .error .BatchNotOpen

/-- `close_batch` instruction handler, together with the `CloseBatch` account
constraint `has_one = authority @ ErrorCode::Unauthorized` that runs before
the handler body: requires the caller to match the stored authority, the
status to be `Open` and `order_count > 0`, then synchronously sets the status
to `Closed`.  No computation is dispatched (empty effect list) and no other
field is written. -/
def close_batch (caller : Nat) (batch : TradingBatch) :
    Except ErrorCode (TradingBatch × List Effect) :=
  if caller = batch.authority then
    if batch.status = .Open then
      if 0 < batch.order_count then
        .ok ({ batch with status := .Closed }, [])
      else .error .EmptyBatch
    else .error .BatchNotOpen
  else .error .Unauthorized

/-- `verify_allocation` instruction handler, together with the
`VerifyAllocation` account constraint `has_one = authority`: requires status
`Executed`, at least 4 public inputs (else `InvalidProof`), public input
index 1 equal to the stored `merkle_root` (else `MerkleRootMismatch`), a
proof blob of at least 64 bytes (else `InvalidProofData`), then flips the
status to `Verified`. -/
def verify_allocation (caller : Nat) (proof_data : List Nat)
    (public_inputs : List (List Nat)) (batch : TradingBatch) :
    Except ErrorCode TradingBatch :=
  if caller = batch.authority then
    if batch.status = .Executed then
      if 4 ≤ public_inputs.length then
        if public_inputs.getD 1 [] = batch.merkle_root then
          if 64 ≤ proof_data.length then
            .ok { batch with status := .Verified }
          else .error .InvalidProofData
        else .error .MerkleRootMismatch
      else .error .InvalidProof
    else .error .BatchNotExecuted
  else .error .Unauthorized

end PrivacyTrading

namespace ZkVerifier

/-- Error codes of the zk-verifier program (enum `ErrorCode`). -/
inductive ErrorCode where
  | InvalidProof
  | InvalidProofData
  | BatchTooLarge
  | EmptyBatch
  | BatchVerificationFailed
deriving DecidableEq

/-- One proof submission inside a batch (struct `ProofInput`). -/
structure ProofInput where
  proof_id : String
  query_commitment : List Nat
  response_commitment : List Nat
  merkle_root : List Nat
  proof_data : List Nat
  verification_key : List Nat
deriving DecidableEq

/-- Per-market registry (account `ProofRegistry`). -/
structure ProofRegistry where
  authority : Nat
  market_id : String
  proof_count : Nat
  bump : Nat
deriving DecidableEq

/-- Per-proof record (account `ProofRecord`). -/
structure ProofRecord where
  proof_id : String
  query_commitment : List Nat
  response_commitment : List Nat
  merkle_root : List Nat
  timestamp : Nat
  verified : Bool
  verified_at : Int
  verifier : Nat
  bump : Nat
deriving DecidableEq

/-- Per-batch record (account `BatchRecord`). -/
structure BatchRecord where
  batch_id : String
  proof_count : Nat
  batch_merkle_root : List Nat
  verified : Bool
  verified_at : Int
  authority : Nat
  bump : Nat
deriving DecidableEq

/-- `simple_hash`: XOR-folds the input bytes into a 32-byte accumulator,
byte i going into slot `i % 32`. -/
def simple_hash (data : List Nat) : List Nat :=
  data.enum.foldl
    (fun result p => result.set (p.1 % 32) (Nat.xor (result.getD (p.1 % 32) 0) p.2))
    (List.replicate 32 0)

/-- `verify_ultrahonk_proof`: rejects proof blobs shorter than 64 bytes with
`InvalidProofData`; otherwise compares the first 16 bytes of the supplied
merkle root with the first 16 bytes of `simple_hash` of the concatenated
commitments, and accepts if they match or if the proof blob is longer than
100 bytes. -/
def verify_ultrahonk_proof (query_commitment response_commitment merkle_root : List Nat)
    (proof_data : List Nat) (_verification_key : List Nat) : Except ErrorCode Bool :=
  if 64 ≤ proof_data.length then
    let combined := query_commitment ++ response_commitment
    let expected_root := simple_hash combined
    let root_matches := decide (merkle_root.take 16 = expected_root.take 16)
    .ok (root_matches || decide (100 < proof_data.length))
  else .error .InvalidProofData

/-- `verify_proof` instruction handler: runs `verify_ultrahonk_proof`
(propagating its error), fails with `InvalidProof` if it returns false, and
otherwise produces the filled-in `ProofRecord` (with `verified := true`) and
the registry with `proof_count` incremented (a u64). -/
def verify_proof (verifier : Nat) (now : Int) (proof_id : String)
    (query_commitment response_commitment merkle_root : List Nat)
    (timestamp : Nat) (proof_data verification_key : List Nat)
    (registry : ProofRegistry) : Except ErrorCode (ProofRecord × ProofRegistry) :=
  match verify_ultrahonk_proof query_commitment response_commitment merkle_root
      proof_data verification_key with
  | .error e => .error e
  | .ok is_valid =>
    if is_valid then
      .ok ({ proof_id := proof_id
             query_commitment := query_commitment
             response_commitment := response_commitment
             merkle_root := merkle_root
             timestamp := timestamp
             verified := true
             verified_at := now
             verifier := verifier
             bump := 0 },
           { registry with proof_count := (registry.proof_count + 1) % 2 ^ 64 })
    else .error .InvalidProof

/-- The verification loop of `batch_verify_proofs`: runs
`verify_ultrahonk_proof` on each proof in order, propagating the first error,
and counts the proofs that verified to true. -/
def countVerified : List ProofInput → Except ErrorCode Nat
  | [] => .ok 0
  | p :: rest =>
    match verify_ultrahonk_proof p.query_commitment p.response_commitment
        p.merkle_root p.proof_data p.verification_key with
    | .error e => .error e
    | .ok is_valid =>
      match countVerified rest with
      | .error e => .error e
      | .ok n => .ok (if is_valid then n + 1 else n)

/-- `batch_verify_proofs` instruction handler: requires at most 32 proofs
(else `BatchTooLarge`) and a non-empty list (else `EmptyBatch`), runs the
verification loop (whose errors propagate), requires every proof verified
(else `BatchVerificationFailed`), and only then produces the `BatchRecord`
storing the caller-supplied `batch_merkle_root` verbatim. -/
def batch_verify_proofs (authority : Nat) (now : Int) (batch_id : String)
    (proofs : List ProofInput) (batch_merkle_root : List Nat) :
    Except ErrorCode BatchRecord :=
  if proofs.length ≤ 32 then
    if proofs.isEmpty then .error .EmptyBatch
    else
      match countVerified proofs with
      | .error e => .error e
      | .ok verified_count =>
        if verified_count = proofs.length then
          .ok { batch_id := batch_id
                proof_count := proofs.length
                batch_merkle_root := batch_merkle_root
                verified := true
                verified_at := now
                authority := authority
                bump := 0 }
        else .error .BatchVerificationFailed
  else .error .BatchTooLarge

/-- `check_verification` instruction handler: a pure read of the proof
record's `verified` flag. -/
def check_verification (record : ProofRecord) : Bool := record.verified

/-- Persistent state of the zk-verifier program: the association of derived
account keys to stored records (registries by market_id, proof records by
proof_id, batch records by batch_id). -/
structure ZkState where
  registries : List (String × ProofRegistry)
  proof_records : List (String × ProofRecord)
  batch_records : List (String × BatchRecord)

/-- The empty ledger: no account of this program exists yet. -/
def ZkState.empty : ZkState := ⟨[], [], []⟩

/-- One invocation of a state-mutating instruction of the zk-verifier
program, with all caller-supplied arguments. -/
inductive ZkOp where
  | init_registry (authority : Nat) (market_id : String)
  | submit_proof (verifier : Nat) (now : Int) (market_id proof_id : String)
      (query_commitment response_commitment merkle_root : List Nat)
      (timestamp : Nat) (proof_data verification_key : List Nat)
  | submit_batch (authority : Nat) (now : Int) (batch_id : String)
      (proofs : List ProofInput) (batch_merkle_root : List Nat)

/-- Effect of one instruction on the stored state.  Account `init` fails if
the derived key already exists, and a failed instruction leaves the state
unchanged (the transaction aborts); `verify_proof` additionally requires the
referenced registry to exist. -/
def zkStep (st : ZkState) (op : ZkOp) : ZkState :=
  match op with
  | .init_registry a m =>
    if (st.registries.lookup m).isSome then st
    else { st with registries := (m, ⟨a, m, 0, 0⟩) :: st.registries }
  | .submit_proof v now m pid qc rc mr ts pd vk =>
    match st.registries.lookup m with
    | none => st
    | some reg =>
      if (st.proof_records.lookup pid).isSome then st
      else
        match verify_proof v now pid qc rc mr ts pd vk reg with
        | .error _ => st
        | .ok res =>
          { st with
            proof_records := (pid, res.1) :: st.proof_records
            registries := st.registries.map (fun q => if q.1 = m then (m, res.2) else q) }
  | .submit_batch a now bid proofs root =>
    if (st.batch_records.lookup bid).isSome then st
    else
      match batch_verify_proofs a now bid proofs root with
      | .error _ => st
      | .ok rec => { st with batch_records := (bid, rec) :: st.batch_records }

/-- The state reached by running a sequence of instructions from the empty
ledger. -/
def runOps (ops : List ZkOp) : ZkState := ops.foldl zkStep ZkState.empty

end ZkVerifier

/-! Concrete sample records used by witnesses. -/

/-- A sample trading batch with a given status and order count. -/
def mkBatch (status : PrivacyTrading.BatchStatus) (order_count : Nat) :
    PrivacyTrading.TradingBatch :=
  { bump := 0, authority := 5, market_id := "M1", side := .Yes, status := status,
    order_count := order_count, total_usdc := 0, state_nonce := 1,
    encrypted_state := List.replicate 8 (List.replicate 32 0),
    merkle_root := List.replicate 32 0 }

/-- The 32-byte all-zero array. -/
def z32 : List Nat := List.replicate 32 0

/-! ## Theorems about the privacy-trading program -/

namespace PrivacyTrading

/-- C1: for every callback (init_batch_callback, add_order_callback,
execute_batch_callback), if signature verification of the delivered output
fails, the operation returns the AbortedComputation error, and the persisted
batch record — hence every one of its fields (encrypted_state, state_nonce,
status, order_count, merkle_root, total_usdc) — is left exactly as it was
before the callback: no partial mutation occurs. -/
theorem callback_failure_aborts_without_mutation (b : TradingBatch) :
    init_batch_callback none b = .error .AbortedComputation ∧
    add_order_callback none b = .error .AbortedComputation ∧
    execute_batch_callback none b = .error .AbortedComputation ∧
    runCallback (init_batch_callback none b) b = b ∧
    runCallback (add_order_callback none b) b = b ∧
    runCallback (execute_batch_callback none b) b = b :=
  ⟨rfl, rfl, rfl, rfl, rfl, rfl⟩

/-- C2: add_order fails with BatchNotOpen when the batch's status is not
Open; fails with BatchFull when (the batch is Open and) its order_count is
at least 32, regardless of any computation state — the handler consults
nothing else; and on success creates the OrderCommitment record with index
equal to the batch's current order_count strictly before the asynchronous
computation is dispatched (the effect trace lists the record creation ahead
of the dispatch), leaving the batch record itself unchanged. -/
theorem add_order_checks_and_reserves_index (u k : Nat) (ch : List Nat)
    (b : TradingBatch) :
    (b.status ≠ .Open → add_order u k ch b = .error .BatchNotOpen) ∧
    (b.status = .Open → 32 ≤ b.order_count → add_order u k ch b = .error .BatchFull) ∧
    (b.status = .Open → b.order_count < 32 →
      add_order u k ch b =
        .ok (b, [.createOrder
                   { bump := 0, batch := k, user := u, commitment_hash := ch,
                     index := b.order_count, allocated := false },
                 .dispatchComputation "add_order"])) := by
  refine ⟨fun h => ?_, fun h1 h2 => ?_, fun h1 h2 => ?_⟩
  · simp [add_order, h]
  · simp [add_order, h1, Nat.not_lt.mpr h2]
  · simp [add_order, h1, h2]

/-- Witness for C2 at concrete inputs: a closed batch, a full open batch and
an open batch with room. -/
theorem add_order_checks_and_reserves_index_witness :
    add_order 2 3 [] (mkBatch .Closed 0) = .error .BatchNotOpen ∧
    add_order 2 3 [] (mkBatch .Open 32) = .error .BatchFull ∧
    add_order 2 3 [] (mkBatch .Open 0) =
      .ok (mkBatch .Open 0,
           [.createOrder
              { bump := 0, batch := 3, user := 2, commitment_hash := [],
                index := 0, allocated := false },
            .dispatchComputation "add_order"]) :=
  ⟨(add_order_checks_and_reserves_index 2 3 [] (mkBatch .Closed 0)).1 (by decide),
   (add_order_checks_and_reserves_index 2 3 [] (mkBatch .Open 32)).2.1 rfl (by decide),
   (add_order_checks_and_reserves_index 2 3 [] (mkBatch .Open 0)).2.2 rfl (by decide)⟩

/-- C3: for an (authorized) call on a batch in status Executed,
verify_allocation fails with InvalidProof when fewer than 4 public inputs
are supplied; otherwise fails with MerkleRootMismatch when public input
index 1 differs from the batch's stored merkle_root; otherwise fails with
InvalidProofData when the proof blob is shorter than 64 bytes; otherwise
succeeds and transitions the batch status to Verified (and changes no other
field). -/
theorem verify_allocation_checks (c : Nat) (pd : List Nat)
    (pis : List (List Nat)) (b : TradingBatch)
    (hauth : c = b.authority) (hst : b.status = .Executed) :
    (pis.length < 4 → verify_allocation c pd pis b = .error .InvalidProof) ∧
    (4 ≤ pis.length → pis.getD 1 [] ≠ b.merkle_root →
      verify_allocation c pd pis b = .error .MerkleRootMismatch) ∧
    (4 ≤ pis.length → pis.getD 1 [] = b.merkle_root → pd.length < 64 →
      verify_allocation c pd pis b = .error .InvalidProofData) ∧
    (4 ≤ pis.length → pis.getD 1 [] = b.merkle_root → 64 ≤ pd.length →
      verify_allocation c pd pis b = .ok { b with status := .Verified }) := by
  refine ⟨fun h => ?_, fun h1 h2 => ?_, fun h1 h2 h3 => ?_, fun h1 h2 h3 => ?_⟩
  · simp [verify_allocation, hauth, hst, Nat.not_le.mpr h]
  · have h2a : pis[1]?.getD [] ≠ b.merkle_root := by simpa using h2
    simp [verify_allocation, hauth, hst, h1, h2a]
  · have h2a : pis[1]?.getD [] = b.merkle_root := by simpa using h2
    simp [verify_allocation, hauth, hst, h1, h2a, Nat.not_le.mpr h3]
  · have h2a : pis[1]?.getD [] = b.merkle_root := by simpa using h2
    simp [verify_allocation, hauth, hst, h1, h2a, h3]

/-- Witness for C3 at concrete inputs: too few public inputs, a mismatched
root, a short proof blob, and a successful call. -/
theorem verify_allocation_checks_witness :
    verify_allocation 5 [] [] (mkBatch .Executed 3) = .error .InvalidProof ∧
    verify_allocation 5 [] [[], [9], [], []] (mkBatch .Executed 3) =
      .error .MerkleRootMismatch ∧
    verify_allocation 5 [] [[], z32, [], []] (mkBatch .Executed 3) =
      .error .InvalidProofData ∧
    verify_allocation 5 (List.replicate 64 0) [[], z32, [], []] (mkBatch .Executed 3) =
      .ok { mkBatch .Executed 3 with status := .Verified } :=
  ⟨(verify_allocation_checks 5 [] [] (mkBatch .Executed 3) rfl rfl).1 (by decide),
   (verify_allocation_checks 5 [] [[], [9], [], []] (mkBatch .Executed 3) rfl rfl).2.1
     (by decide) (by decide),
   (verify_allocation_checks 5 [] [[], z32, [], []] (mkBatch .Executed 3) rfl rfl).2.2.1
     (by decide) (by decide) (by decide),
   (verify_allocation_checks 5 (List.replicate 64 0) [[], z32, [], []]
     (mkBatch .Executed 3) rfl rfl).2.2.2 (by decide) (by decide) (by decide)⟩

/-- C8: close_batch is authority-only (fails with Unauthorized when the
caller is not the batch's stored authority) and, for an authorized caller,
fails with BatchNotOpen when the batch is not Open, fails with EmptyBatch
when order_count = 0, and for order_count ≥ 1 synchronously transitions the
status to Closed while dispatching no computation (empty effect trace) and
changing no other batch field (the result is the input batch with only the
status replaced). -/
theorem close_batch_checks (c : Nat) (b : TradingBatch) :
    (c ≠ b.authority → close_batch c b = .error .Unauthorized) ∧
    (c = b.authority → b.status ≠ .Open → close_batch c b = .error .BatchNotOpen) ∧
    (c = b.authority → b.status = .Open → b.order_count = 0 →
      close_batch c b = .error .EmptyBatch) ∧
    (c = b.authority → b.status = .Open → 1 ≤ b.order_count →
      close_batch c b = .ok ({ b with status := .Closed }, [])) := by
  refine ⟨fun h => ?_, fun h1 h2 => ?_, fun h1 h2 h3 => ?_, fun h1 h2 h3 => ?_⟩
  · simp [close_batch, h]
  · simp [close_batch, h1, h2]
  · simp [close_batch, h1, h2, h3]
  · simp [close_batch, h1, h2, Nat.lt_of_lt_of_le Nat.zero_lt_one h3]

/-- Witness for C8 at concrete inputs: a wrong caller, a closed batch, an
empty open batch, and a successful close. -/
theorem close_batch_checks_witness :
    close_batch 9 (mkBatch .Open 3) = .error .Unauthorized ∧
    close_batch 5 (mkBatch .Executed 3) = .error .BatchNotOpen ∧
    close_batch 5 (mkBatch .Open 0) = .error .EmptyBatch ∧
    close_batch 5 (mkBatch .Open 3) = .ok ({ mkBatch .Open 3 with status := .Closed }, []) :=
  ⟨(close_batch_checks 9 (mkBatch .Open 3)).1 (by decide),
   (close_batch_checks 5 (mkBatch .Executed 3)).2.1 rfl (by decide),
   (close_batch_checks 5 (mkBatch .Open 0)).2.2.1 rfl rfl rfl,
   (close_batch_checks 5 (mkBatch .Open 3)).2.2.2 rfl rfl (by decide)⟩

end PrivacyTrading

/-! ## Theorems about the confidential computation (encrypted-ixs) -/

namespace Circuits

/-- C5: for every prior BatchState and every order (amount, wallet_lo,
wallet_hi), the confidential add_order instruction produces a new state whose
total_amount is the old total_amount plus the amount under wrapping 64-bit
arithmetic (the operation is a total function, so it cannot fault on
overflow), whose order_count is the old order_count plus 1 (under the u8
field's wrapping arithmetic; exactly plus 1 whenever the old count is below
255, which covers every count the 32-order cap allows), whose commitment
root is updated by root_lo XOR digest and root_hi plus digest wrapping at
2 ^ 128, and which stores the per-order digest verbatim exactly in the slot
selected by a new order_count of 1 through 4 — for any other new count
(orders 5 and beyond) all four slots are unchanged and only the folded root
changes. -/
theorem add_order_state_update (amount wlo whi : Nat) (s : BatchState) :
    (add_order amount wlo whi s).total_amount = (s.total_amount + amount) % 2 ^ 64 ∧
    (add_order amount wlo whi s).order_count = (s.order_count + 1) % 2 ^ 8 ∧
    (s.order_count < 255 → (add_order amount wlo whi s).order_count = s.order_count + 1) ∧
    (add_order amount wlo whi s).commitment_root =
      Nat.xor s.commitment_root (compute_order_hash amount wlo whi) ∧
    (add_order amount wlo whi s).commitment_root_hi =
      (s.commitment_root_hi + compute_order_hash amount wlo whi) % 2 ^ 128 ∧
    (add_order amount wlo whi s).order_hash_1 =
      (if (s.order_count + 1) % 2 ^ 8 = 1 then compute_order_hash amount wlo whi
       else s.order_hash_1) ∧
    (add_order amount wlo whi s).order_hash_2 =
      (if (s.order_count + 1) % 2 ^ 8 = 2 then compute_order_hash amount wlo whi
       else s.order_hash_2) ∧
    (add_order amount wlo whi s).order_hash_3 =
      (if (s.order_count + 1) % 2 ^ 8 = 3 then compute_order_hash amount wlo whi
       else s.order_hash_3) ∧
    (add_order amount wlo whi s).order_hash_4 =
      (if (s.order_count + 1) % 2 ^ 8 = 4 then compute_order_hash amount wlo whi
       else s.order_hash_4) := by
  refine ⟨rfl, rfl, fun h => ?_, rfl, rfl, rfl, rfl, rfl, rfl⟩
  have heq : (add_order amount wlo whi s).order_count = (s.order_count + 1) % 2 ^ 8 := rfl
  rw [heq]
  exact Nat.mod_eq_of_lt (by omega)

/-- Witness for C5: the first order added to a freshly initialized state
increments the count from 0 to exactly 1. -/
theorem add_order_state_update_witness :
    (add_order 5 7 9 init_batch).order_count = init_batch.order_count + 1 :=
  (add_order_state_update 5 7 9 init_batch).2.2.1 (by decide)

/-- The packing loop cut off after its first n iterations (proof device for
reasoning about `packRoots = packAux lo hi 16` by induction on n). -/
def packAux (lo hi n : Nat) : List Nat :=
  (List.range n).foldl (packStep lo hi) (List.replicate 32 0)

lemma packAux_length (lo hi n : Nat) : (packAux lo hi n).length = 32 := by
  induction n with
  | zero => simp [packAux]
  | succ k ih =>
    simp only [packAux, List.range_succ, List.foldl_append, List.foldl_cons,
      List.foldl_nil, packStep, List.length_set]
    simpa [packAux] using ih

lemma packAux_getElem (lo hi : Nat) :
    ∀ n, n ≤ 16 → ∀ j, j < 32 →
      (packAux lo hi n)[j]? =
        some (if j < n then byteAt lo j
              else if 16 ≤ j ∧ j < 16 + n then byteAt hi (j - 16) else 0) := by
  intro n
  induction n with
  | zero =>
    intro _ j hj
    simp only [packAux, List.range_zero, List.foldl_nil, Nat.not_lt_zero, if_false]
    have hc : ¬(16 ≤ j ∧ j < 16 + 0) := by omega
    rw [List.getElem?_replicate, if_pos hj, if_neg hc]
  | succ k ih =>
    intro hn j hj
    have hk : k ≤ 16 := Nat.le_of_succ_le hn
    have hrw : packAux lo hi (k + 1) =
        ((packAux lo hi k).set k (byteAt lo k)).set (k + 16) (byteAt hi k) := by
      simp [packAux, List.range_succ, List.foldl_append, packStep]
    rw [hrw]
    by_cases hjk16 : j = k + 16
    · subst hjk16
      have hlen : k + 16 < ((packAux lo hi k).set k (byteAt lo k)).length := by
        rw [List.length_set, packAux_length]; omega
      rw [List.getElem?_set_self hlen]
      have hc1 : ¬(k + 16 < k + 1) := by omega
      simp [hc1, Nat.add_sub_cancel, show (16:Nat) ≤ k + 16 by omega,
        show k + 16 < 16 + (k + 1) by omega]
    · rw [List.getElem?_set_ne (fun h => hjk16 h.symm)]
      by_cases hjk : j = k
      · subst hjk
        have hlen : j < (packAux lo hi j).length := by rw [packAux_length]; omega
        rw [List.getElem?_set_self hlen]
        simp [Nat.lt_succ_self]
      · rw [List.getElem?_set_ne (fun h => hjk h.symm), ih hk j hj]
        have e1 : (j < k + 1) ↔ (j < k) := by omega
        have e2 : (16 ≤ j ∧ j < 16 + (k + 1)) ↔ (16 ≤ j ∧ j < 16 + k) := by omega
        simp only [e1, e2]

/-- The mixing loop cut off after its first n iterations (proof device for
reasoning about `xorExecHash eh root = xorAux eh root 8`). -/
def xorAux (exec_hash : Nat) (root : List Nat) (n : Nat) : List Nat :=
  (List.range n).foldl (xorStep exec_hash) root

lemma xorAux_length (eh : Nat) (root : List Nat) (n : Nat) :
    (xorAux eh root n).length = root.length := by
  induction n with
  | zero => simp [xorAux]
  | succ k ih =>
    simp only [xorAux, List.range_succ, List.foldl_append, List.foldl_cons,
      List.foldl_nil, xorStep, List.length_set]
    simpa [xorAux] using ih

lemma xorAux_getElem (eh : Nat) (root : List Nat) (hl : root.length = 32) :
    ∀ n, n ≤ 8 → ∀ j, j < 32 →
      (xorAux eh root n)[j]? =
        some (if j < n then Nat.xor (root.getD j 0) (byteAt eh j) else root.getD j 0) := by
  intro n
  induction n with
  | zero =>
    intro _ j hj
    simp only [xorAux, List.range_zero, List.foldl_nil, Nat.not_lt_zero, if_false]
    rw [List.getD_eq_getElem?_getD]
    cases hx : root[j]? with
    | none => rw [List.getElem?_eq_none_iff] at hx; omega
    | some v => simp
  | succ k ih =>
    intro hn j hj
    have hk : k ≤ 8 := Nat.le_of_succ_le hn
    have hrw : xorAux eh root (k + 1) =
        (xorAux eh root k).set k
          (Nat.xor ((xorAux eh root k).getD k 0) (byteAt eh k)) := by
      simp [xorAux, List.range_succ, List.foldl_append, xorStep]
    have hgetk : (xorAux eh root k).getD k 0 = root.getD k 0 := by
      rw [List.getD_eq_getElem?_getD, ih hk k (by omega)]
      simp [Nat.lt_irrefl]
    rw [hrw, hgetk]
    by_cases hjk : j = k
    · subst hjk
      have hlen : j < (xorAux eh root j).length := by rw [xorAux_length, hl]; omega
      rw [List.getElem?_set_self hlen]
      simp [Nat.lt_succ_self]
    · rw [List.getElem?_set_ne (fun h => hjk h.symm), ih hk j hj]
      have e1 : (j < k + 1) ↔ (j < k) := by omega
      simp only [e1]

/-- C6: for every final BatchState and every (total_shares, execution_price),
the confidential execute_batch instruction returns a 32-byte merkle_root
whose low 16 bytes are the little-endian commitment_root and whose high 16
bytes are the little-endian commitment_root_hi, with the first 8 bytes XORed
with the little-endian byte decomposition of the digest of (total_shares,
execution_price, total_amount), and returns total_usdc equal to the state's
total_amount; being a pure function of the final state and the two
parameters, two calls with identical inputs and identical prior state yield
identical output. -/
theorem execute_batch_output_layout (ts ep : Nat) (s : BatchState) :
    (execute_batch ts ep s).2 = s.total_amount ∧
    (execute_batch ts ep s).1.length = 32 ∧
    (∀ i, i < 32 →
      (execute_batch ts ep s).1[i]? =
        some (if i < 8 then
                Nat.xor (byteAt s.commitment_root i)
                  (byteAt (hash_execution_params ts ep s.total_amount) i)
              else if i < 16 then byteAt s.commitment_root i
              else byteAt s.commitment_root_hi (i - 16))) ∧
    execute_batch ts ep s = execute_batch ts ep s := by
  have hpackeq : ∀ lo hi : Nat, packRoots lo hi = packAux lo hi 16 := fun lo hi => rfl
  have hxoreq : ∀ eh : Nat, ∀ r : List Nat, xorExecHash eh r = xorAux eh r 8 :=
    fun eh r => rfl
  have hpacklen : (packRoots s.commitment_root s.commitment_root_hi).length = 32 := by
    rw [hpackeq]; exact packAux_length _ _ _
  have hfst : (execute_batch ts ep s).1 =
      xorExecHash (hash_execution_params ts ep s.total_amount)
        (packRoots s.commitment_root s.commitment_root_hi) := by
    simp only [execute_batch]
  refine ⟨rfl, ?_, ?_, rfl⟩
  · rw [hfst, hxoreq, xorAux_length, hpacklen]
  · intro i hi
    have hpack : (packRoots s.commitment_root s.commitment_root_hi).getD i 0 =
        (if i < 16 then byteAt s.commitment_root i
         else if 16 ≤ i ∧ i < 32 then byteAt s.commitment_root_hi (i - 16) else 0) := by
      rw [List.getD_eq_getElem?_getD, hpackeq,
        packAux_getElem _ _ 16 (Nat.le_refl 16) i hi]
      simp
    rw [hfst, hxoreq, xorAux_getElem _ _ hpacklen 8 (Nat.le_refl 8) i hi, hpack]
    by_cases h8 : i < 8
    · simp [h8, show i < 16 by omega]
    · by_cases h16 : i < 16
      · simp [h8, h16]
      · simp [h8, h16, show 16 ≤ i by omega, hi]

/-- Witness for C6: byte 0 of the root produced from the freshly initialized
state is the low commitment-root byte XORed with the low digest byte. -/
theorem execute_batch_output_layout_witness :
    (execute_batch 350 1 init_batch).1[0]? =
      some (Nat.xor (byteAt 0 0) (byteAt (hash_execution_params 350 1 0) 0)) := by
  have h := (execute_batch_output_layout 350 1 init_batch).2.2.1 0 (by decide)
  simpa [init_batch] using h

end Circuits

/-! ## Theorems about the zk-verifier program -/

namespace ZkVerifier

/-- C7: for every combination of commitments, merkle root and verification
key, verify_ultrahonk_proof returns true for any proof whose proof_data
length exceeds 100 bytes, regardless of cryptographic validity, and errors
with InvalidProofData for any proof_data shorter than 64 bytes. -/
theorem ultrahonk_placeholder_acceptance (qc rc mr pd vk : List Nat) :
    (100 < pd.length → verify_ultrahonk_proof qc rc mr pd vk = .ok true) ∧
    (pd.length < 64 → verify_ultrahonk_proof qc rc mr pd vk = .error .InvalidProofData) := by
  constructor
  · intro h
    have h64 : 64 ≤ pd.length := by omega
    simp [verify_ultrahonk_proof, h64, h]
  · intro h
    simp [verify_ultrahonk_proof, Nat.not_le.mpr h]

/-- Witness for C7: a 101-byte all-zero blob is accepted against arbitrary
zero commitments, and an empty blob is rejected as InvalidProofData. -/
theorem ultrahonk_placeholder_acceptance_witness :
    verify_ultrahonk_proof z32 z32 z32 (List.replicate 101 0) z32 = .ok true ∧
    verify_ultrahonk_proof z32 z32 z32 [] z32 = .error .InvalidProofData :=
  ⟨(ultrahonk_placeholder_acceptance z32 z32 z32 (List.replicate 101 0) z32).1 (by decide),
   (ultrahonk_placeholder_acceptance z32 z32 z32 [] z32).2 (by decide)⟩

/-- Boolean verdict of verify_ultrahonk_proof once the structural 64-byte
length check has passed. -/
def proofPasses (p : ProofInput) : Bool :=
  decide (p.merkle_root.take 16 =
      (simple_hash (p.query_commitment ++ p.response_commitment)).take 16)
    || decide (100 < p.proof_data.length)

lemma verify_ultrahonk_ok_of_long (p : ProofInput) (h : 64 ≤ p.proof_data.length) :
    verify_ultrahonk_proof p.query_commitment p.response_commitment p.merkle_root
      p.proof_data p.verification_key = .ok (proofPasses p) := by
  simp [verify_ultrahonk_proof, proofPasses, h]

lemma verify_ultrahonk_error_of_short (p : ProofInput) (h : p.proof_data.length < 64) :
    verify_ultrahonk_proof p.query_commitment p.response_commitment p.merkle_root
      p.proof_data p.verification_key = .error .InvalidProofData := by
  simp [verify_ultrahonk_proof, Nat.not_le.mpr h]

lemma countVerified_error_of_short (ps : List ProofInput)
    (h : ∃ p ∈ ps, p.proof_data.length < 64) :
    countVerified ps = .error .InvalidProofData := by
  induction ps with
  | nil => simp at h
  | cons p rest ih =>
    by_cases hp : p.proof_data.length < 64
    · simp [countVerified, verify_ultrahonk_error_of_short p hp]
    · have hlong : 64 ≤ p.proof_data.length := by omega
      have hrest : ∃ q ∈ rest, q.proof_data.length < 64 := by
        rcases h with ⟨q, hq, hql⟩
        rcases List.mem_cons.mp hq with hq1 | hq2
        · exact absurd (hq1 ▸ hql) hp
        · exact ⟨q, hq2, hql⟩
      simp [countVerified, verify_ultrahonk_ok_of_long p hlong, ih hrest]

lemma countVerified_ok_of_long (ps : List ProofInput)
    (h : ∀ p ∈ ps, 64 ≤ p.proof_data.length) :
    countVerified ps = .ok (ps.countP (fun p => proofPasses p)) := by
  induction ps with
  | nil => simp [countVerified]
  | cons p rest ih =>
    have hp := h p (List.mem_cons_self p rest)
    have hrest : ∀ q ∈ rest, 64 ≤ q.proof_data.length :=
      fun q hq => h q (List.mem_cons_of_mem p hq)
    by_cases hpass : proofPasses p
    · simp [countVerified, verify_ultrahonk_ok_of_long p hp, ih hrest,
        List.countP_cons, hpass]
    · simp [countVerified, verify_ultrahonk_ok_of_long p hp, ih hrest,
        List.countP_cons, hpass]

lemma countP_ne_length_of_fail (ps : List ProofInput)
    (h : ∃ p ∈ ps, proofPasses p = false) :
    ps.countP (fun p => proofPasses p) ≠ ps.length := by
  intro heq
  rw [List.countP_eq_length] at heq
  rcases h with ⟨p, hp, hfail⟩
  have hcontra := heq p hp
  rw [hfail] at hcontra
  cases hcontra

/-- C4 (amended): batch_verify_proofs fails with BatchTooLarge when more than
32 proofs are submitted and with EmptyBatch when the list is empty; and for
every list of at most 32 proofs, if any single proof fails verification the
whole call fails and no BatchRecord is created (the handler returns an error,
so the all-or-nothing law holds) — but the error kind depends on how the
proof fails: when some proof's proof_data is shorter than 64 bytes the
structural check's InvalidProofData error propagates out of the loop, and
only when every proof passes the structural check while some proof verifies
to false does the call fail with BatchVerificationFailed. -/
theorem batch_verify_all_or_nothing (a : Nat) (now : Int) (bid : String)
    (proofs : List ProofInput) (root : List Nat) :
    (32 < proofs.length →
      batch_verify_proofs a now bid proofs root = .error .BatchTooLarge) ∧
    (proofs = [] →
      batch_verify_proofs a now bid proofs root = .error .EmptyBatch) ∧
    (proofs.length ≤ 32 → (∃ p ∈ proofs, p.proof_data.length < 64) →
      batch_verify_proofs a now bid proofs root = .error .InvalidProofData) ∧
    (proofs.length ≤ 32 → (∀ p ∈ proofs, 64 ≤ p.proof_data.length) →
      (∃ p ∈ proofs, proofPasses p = false) →
      batch_verify_proofs a now bid proofs root = .error .BatchVerificationFailed) := by
  refine ⟨fun h => ?_, fun h => ?_, fun h1 h2 => ?_, fun h1 h2 h3 => ?_⟩
  · simp [batch_verify_proofs, Nat.not_le.mpr h]
  · subst h; simp [batch_verify_proofs]
  · have hne : proofs ≠ [] := by
      rcases h2 with ⟨p, hp, _⟩; exact List.ne_nil_of_mem hp
    simp [batch_verify_proofs, h1, hne, countVerified_error_of_short proofs h2]
  · have hne : proofs ≠ [] := by
      rcases h3 with ⟨p, hp, _⟩; exact List.ne_nil_of_mem hp
    simp [batch_verify_proofs, h1, hne, countVerified_ok_of_long proofs h2,
      countP_ne_length_of_fail proofs h3]

/-- Counterexample to C4 as stated: a batch containing one proof whose
proof_data is empty fails verification, yet the call returns InvalidProofData
— not the claimed BatchVerificationFailed (no BatchRecord is created either
way). -/
theorem batch_verify_claim_counterexample :
    batch_verify_proofs 0 0 "b0"
      [{ proof_id := "p0", query_commitment := z32, response_commitment := z32,
         merkle_root := z32, proof_data := [], verification_key := z32 }] z32 =
      .error .InvalidProofData ∧
    (Except.error ErrorCode.InvalidProofData ≠
      (Except.error ErrorCode.BatchVerificationFailed : Except ErrorCode BatchRecord)) := by
  refine ⟨by rfl, fun hcontra => ?_⟩
  injection hcontra with h2
  cases h2

/-- A proof input whose blob is empty (fails the structural check). -/
def shortProofInput : ProofInput :=
  { proof_id := "p0", query_commitment := z32, response_commitment := z32,
    merkle_root := z32, proof_data := [], verification_key := z32 }

/-- A proof input with a 64-byte blob but a mismatched root (verifies to
false without erroring). -/
def failProofInput : ProofInput :=
  { proof_id := "p1", query_commitment := z32, response_commitment := z32,
    merkle_root := 1 :: List.replicate 31 0, proof_data := List.replicate 64 0,
    verification_key := z32 }

/-- Witness for C4 (amended) at concrete inputs: an oversized batch, an empty
batch, a batch with a structurally short proof, and a batch with a false
proof. -/
theorem batch_verify_all_or_nothing_witness :
    batch_verify_proofs 0 0 "b1" (List.replicate 33 shortProofInput) z32 =
      .error .BatchTooLarge ∧
    batch_verify_proofs 0 0 "b1" [] z32 = .error .EmptyBatch ∧
    batch_verify_proofs 0 0 "b1" [shortProofInput] z32 = .error .InvalidProofData ∧
    batch_verify_proofs 0 0 "b1" [failProofInput] z32 = .error .BatchVerificationFailed :=
  ⟨(batch_verify_all_or_nothing 0 0 "b1" (List.replicate 33 shortProofInput) z32).1
      (by decide),
   (batch_verify_all_or_nothing 0 0 "b1" [] z32).2.1 rfl,
   (batch_verify_all_or_nothing 0 0 "b1" [shortProofInput] z32).2.2.1
      (by decide) (by decide),
   (batch_verify_all_or_nothing 0 0 "b1" [failProofInput] z32).2.2.2
      (by decide) (by decide) (by decide)⟩

/-- C10: batch_verify_proofs stores the caller-supplied batch_merkle_root
argument verbatim in the BatchRecord — for every accepted call, whatever the
argument's value, the resulting record's batch_merkle_root equals the
argument; nothing in the handler compares it to the per-proof merkle roots
or to any other data. -/
theorem batch_record_stores_root_verbatim (a : Nat) (now : Int) (bid : String)
    (proofs : List ProofInput) (root : List Nat) (rec : BatchRecord)
    (h : batch_verify_proofs a now bid proofs root = .ok rec) :
    rec.batch_merkle_root = root := by
  unfold batch_verify_proofs at h
  split at h
  · split at h
    · cases h
    · split at h
      · cases h
      · split at h
        · injection h with h1
          rw [← h1]
        · cases h
  · cases h

/-- A proof input that passes the placeholder verification with a 64-byte
blob (zero commitments hash to the zero root). -/
def goodProofInput : ProofInput :=
  { proof_id := "p2", query_commitment := z32, response_commitment := z32,
    merkle_root := z32, proof_data := List.replicate 64 0, verification_key := z32 }

/-- The arbitrary root value stored by the C10 witness call. -/
def root7 : List Nat := List.replicate 32 7

/-- Witness for C10: a concrete accepted call whose record stores the
caller-supplied (otherwise unchecked) root verbatim. -/
theorem batch_record_stores_root_verbatim_witness :
    batch_verify_proofs 0 0 "b2" [goodProofInput] root7 =
      .ok { batch_id := "b2", proof_count := 1, batch_merkle_root := root7,
            verified := true, verified_at := 0, authority := 0, bump := 0 } ∧
    ({ batch_id := "b2", proof_count := 1, batch_merkle_root := root7,
       verified := true, verified_at := 0, authority := 0,
       bump := 0 } : BatchRecord).batch_merkle_root = root7 :=
  ⟨by rfl,
   batch_record_stores_root_verbatim 0 0 "b2" [goodProofInput] root7 _ (by rfl)⟩

/-- Every stored proof record carries verified = true. -/
def RecordsVerified (st : ZkState) : Prop :=
  ∀ pid rec, st.proof_records.lookup pid = some rec → rec.verified = true

lemma verify_proof_sets_verified (v : Nat) (now : Int) (pid : String)
    (qc rc mr : List Nat) (ts : Nat) (pd vk : List Nat) (reg : ProofRegistry)
    (res : ProofRecord × ProofRegistry)
    (h : verify_proof v now pid qc rc mr ts pd vk reg = .ok res) :
    res.1.verified = true := by
  unfold verify_proof at h
  split at h
  · cases h
  · split at h
    · injection h with h1
      rw [← h1]
    · cases h

lemma recordsVerified_step (st : ZkState) (op : ZkOp)
    (h : RecordsVerified st) : RecordsVerified (zkStep st op) := by
  cases op with
  | init_registry a m =>
    intro pid rec hl
    simp only [zkStep] at hl
    split at hl
    · exact h pid rec hl
    · exact h pid rec hl
  | submit_proof v now m pid qc rc mr ts pd vk =>
    intro pid2 rec2 hl
    simp only [zkStep] at hl
    split at hl
    · exact h pid2 rec2 hl
    · rename_i reg hreg
      split at hl
      · exact h pid2 rec2 hl
      · split at hl
        · exact h pid2 rec2 hl
        · rename_i res hvp
          simp only [List.lookup] at hl
          split at hl
          · have hl2 : some res.1 = some rec2 := hl
            injection hl2 with h12
            rw [← h12]
            exact verify_proof_sets_verified v now pid qc rc mr ts pd vk reg res hvp
          · exact h pid2 rec2 hl
  | submit_batch a now bid proofs root =>
    intro pid rec hl
    simp only [zkStep] at hl
    split at hl
    · exact h pid rec hl
    · split at hl
      · exact h pid rec hl
      · exact h pid rec hl

lemma recordsVerified_foldl (ops : List ZkOp) :
    ∀ st : ZkState, RecordsVerified st → RecordsVerified (ops.foldl zkStep st) := by
  induction ops with
  | nil => intro st h; exact h
  | cons op rest ih =>
    intro st h
    exact ih (zkStep st op) (recordsVerified_step st op h)

/-- C9: every ProofRecord that exists has verified = true.  In every state
reachable from the empty ledger by any sequence of zk-verifier instructions,
every stored proof record carries verified = true — the only operation that
creates one (verify_proof) sets it to true and no operation ever sets it to
false — and therefore check_verification returns true for every existing
record. -/
theorem proof_records_always_verified (ops : List ZkOp) (pid : String)
    (rec : ProofRecord)
    (h : (runOps ops).proof_records.lookup pid = some rec) :
    rec.verified = true ∧ check_verification rec = true := by
  have hinv : RecordsVerified (runOps ops) := by
    apply recordsVerified_foldl
    intro pid2 rec2 hl
    simp [ZkState.empty, List.lookup] at hl
  exact ⟨hinv pid rec h, hinv pid rec h⟩

/-- An instruction sequence that initializes a registry and then verifies
one (placeholder-valid) proof. -/
def demoOps : List ZkOp :=
  [ZkOp.init_registry 7 "m1",
   ZkOp.submit_proof 9 0 "m1" "p1" z32 z32 z32 0 (List.replicate 64 0) z32]

/-- The proof record stored by demoOps. -/
def demoRecord : ProofRecord :=
  { proof_id := "p1", query_commitment := z32, response_commitment := z32,
    merkle_root := z32, timestamp := 0, verified := true, verified_at := 0,
    verifier := 9, bump := 0 }

/-- Witness for C9: a concrete run that creates a proof record, whose
check_verification read returns true. -/
theorem proof_records_always_verified_witness :
    (runOps demoOps).proof_records.lookup "p1" = some demoRecord ∧
    check_verification demoRecord = true :=
  ⟨by rfl, (proof_records_always_verified demoOps "p1" demoRecord (by rfl)).2⟩

end ZkVerifier

end PrivacyPredictions
